import Mathlib

/-!
# Verification of the tsproject `BundleBuilder` (src/src/Bundler.ts)

A shallow embedding of the bundle-assembly core of the repository: the
`BundleBuilder` class (the second, authoritative class in `src/src/Bundler.ts`,
lines 207-586).  Texts are modelled as `String` (offsets are character
offsets, faithful for the ASCII inputs considered here); the TypeScript
front end (parser / checker) is modelled by storing, on each import/export
node, the symbol that `getSymbolAtLocation` returns for its module-name
string literal.  A thrown JavaScript exception is modelled by `Option`
(`none` = the original code throws); an early `return` of a failure result
is modelled by an explicit outcome value.

The `DependencyBuilder` collaborator (`getSourceFileDependencies`) is not
part of the analysed source; where a claim depends on its output, the
output is constrained by a contract modelled from the spec (see
`entryContractB` below).
-/

set_option autoImplicit false

namespace TsBundler

/-- A (start, end) character span into a unit's text, as carried by
TypeScript AST nodes (`node.pos`, `node.end`). -/
structure Span where
  pos : Nat
  endPos : Nat
deriving DecidableEq

/-- `ts.LanguageVariant`: plain TypeScript or the markup (JSX/TSX) variant. -/
inductive LanguageVariant where
  | standard
  | jsx
deriving DecidableEq

/-- The data of `symbol.getDeclarations()[0]` that the bundler inspects:
the declaration's `kind`, its flags, and (for a source-file declaration)
`declaration.getSourceFile().fileName`. -/
inductive ModuleRefDecl where
  /-- The declaration is a `ts.SourceFile`; carries its file name and its
  `NodeFlags.DeclarationFile` flag. -/
  | sourceFileDecl (fileName : String) (isDeclarationFile : Bool)
  /-- The declaration is a `ts.ModuleDeclaration`; carries its
  `NodeFlags.Ambient` flag. -/
  | moduleDeclarationDecl (isAmbient : Bool)
  /-- Any other declaration kind. -/
  | otherDecl
deriving DecidableEq

/-- A `ts.Symbol` as used by the bundler: only `getDeclarations()[0]` is
ever inspected (the original indexes without an emptiness check, so a
single declaration is carried). -/
structure Symbol where
  decl : ModuleRefDecl
deriving DecidableEq

/-- `BundleBuilder.isCodeModule` (lines 557-562): the first declaration is a
source file that is not a declaration (`.d.ts`) file. -/
def isCodeModule (s : Symbol) : Bool :=
  match s.decl with
  | ModuleRefDecl.sourceFileDecl _ isDecl => !isDecl
  | _ => false

/-- `BundleBuilder.isAmbientModule` (lines 564-568): the first declaration is
a module declaration with the `Ambient` flag. -/
def isAmbientModule (s : Symbol) : Bool :=
  match s.decl with
  | ModuleRefDecl.moduleDeclarationDecl isAmbient => isAmbient
  | _ => false

/-- Line 478 reads `this.isCodeModule( moduleSymbol ) || this.isAmbientModule`:
the second operand is the *method itself*, not a call, and a function value
is truthy in JavaScript.  This constant models that truthy operand. -/
def isAmbientModuleRef : Bool := true

/-- An element of `ts.NamedImports` (`import { name }` or
`import { propertyName as name }`). -/
structure ImportSpecifier where
  name : String
  propertyName : Option String
deriving DecidableEq

/-- `ts.ImportClause.namedBindings`: either `* as name` or `{ ... }`. -/
inductive NamedBindings where
  | namespaceImport (name : String)
  | namedImports (elements : List ImportSpecifier)
deriving DecidableEq

/-- `ts.ImportClause`: optional default-import name plus optional named
bindings. -/
structure ImportClause where
  name : Option String
  namedBindings : Option NamedBindings
deriving DecidableEq

/-- `ts.ImportEqualsDeclaration.moduleReference`: either
`require('<text>')` (external module reference, carrying the literal's
`.text`) or a plain entity name (carrying its `getText()`). -/
inductive ModuleReferenceKind where
  | externalModuleReference (exprText : String)
  | entityName (text : String)
deriving DecidableEq

/-- The per-kind payload of a top-level node, covering exactly the node
kinds `BundleBuilder` branches on. -/
inductive NodePayload where
  /-- `ts.ImportDeclaration`: optional import clause, the module
  specifier's `.text`, and the module specifier's `getText()` (the source
  text including quotes). -/
  | importDecl (importClause : Option ImportClause)
      (moduleSpecifierText : String) (moduleSpecifierSrc : String)
  /-- `ts.ImportEqualsDeclaration`: the bound name's `.text`, the module
  reference, and the whole node's `getText()`. -/
  | importEquals (name : String) (moduleRef : ModuleReferenceKind)
      (srcText : String)
  /-- `ts.ExportDeclaration`. -/
  | exportDecl
  /-- `ts.ModuleDeclaration` (a namespace); carries `name.getText()`. -/
  | moduleDecl (name : String)
  /-- Any other top-level declaration. -/
  | otherNode
deriving DecidableEq

/-- A top-level AST node as seen by the bundler.  `moduleSymbol` is the
result of the front-end resolution used both by `getSymbolFromNode`
(lines 571-577) and by `processImportExports` (lines 472-476): `some s`
when the node has an external module name that is a string literal and
`getSymbolAtLocation` returns a symbol for it, `none` otherwise. -/
structure Node where
  payload : NodePayload
  pos : Nat
  endPos : Nat
  /-- `node.flags & ts.NodeFlags.Export`. -/
  flagExport : Bool
  /-- The spans of `node.modifiers` (the original reads `modifiers[0]`). -/
  modifiers : List Span
  moduleSymbol : Option Symbol
deriving DecidableEq

/-- A `ts.SourceFile` as seen by the bundler: canonical file name, full
text, language variant, `NodeFlags.DeclarationFile`, and its top-level
children (what `ts.forEachChild` visits). -/
structure SourceFile where
  fileName : String
  text : String
  languageVariant : LanguageVariant
  isDeclarationFile : Bool
  nodes : List Node
deriving DecidableEq

/-- The `ts.Program` snapshot: the parsed source files.
`program.getSourceFile` looks a file up by its canonical name (host
canonicalisation / slash normalisation are modelled as the identity). -/
structure Program where
  files : List SourceFile
deriving DecidableEq

def Program.getSourceFile (p : Program) (name : String) : Option SourceFile :=
  p.files.find? (fun f => f.fileName == name)

/-- `BundlePackageType` from BundlePackage.ts. -/
inductive BundlePackageType where
  | library
  | component
deriving DecidableEq

/-- `BundlePackage`: packaging type plus configured namespace
(`getPackageType()` / `getPackageNamespace()`). -/
structure BundlePackage where
  packageType : BundlePackageType
  packageNamespace : String
deriving DecidableEq

/-- The bundle config consumed by `build` (`bundle.config`). -/
structure BundleConfig where
  outDir : Option String
  package : BundlePackage
deriving DecidableEq

/-- A `Bundle`: output name, ordered entry file names, config. -/
structure Bundle where
  name : String
  fileNames : List String
  config : BundleConfig
deriving DecidableEq

/-- `ts.DiagnosticCategory`. -/
inductive DiagnosticCategory where
  | error
  | warning
deriving DecidableEq

/-- A diagnostic as produced by `TsCore.createDiagnostic`. -/
structure Diagnostic where
  code : Nat
  category : DiagnosticCategory
  messageText : String
deriving DecidableEq

/-- The diagnostic built at line 271 for an unresolvable entry file.
`TsCore.createDiagnostic` itself is a collaborator outside the analysed
source; the positional substitution of `{0}` by the file name in the
template `"Bundle source file '{0}' not found."` is modelled directly. -/
def createDiagnostic6060 (fileName : String) : Diagnostic :=
  { code := 6060
    category := DiagnosticCategory.error
    messageText := "Bundle source file '" ++ fileName ++ "' not found." }

/-- `ts.ExitStatus` values used by `build`. -/
inductive ExitStatus where
  | success
  | diagnosticsPresentOutputsSkipped
deriving DecidableEq

/-- The `bundleFile` record built at line 353. -/
structure BundleFile where
  path : String
  extension : String
  text : String
deriving DecidableEq

/-- `BundleResult`: status, optional diagnostics, optional bundle file,
mirroring the two constructor calls at lines 273 and 361. -/
structure BundleResult where
  status : ExitStatus
  diagnostics : Option (List Diagnostic)
  bundleFile : Option BundleFile
deriving DecidableEq

/-- The external-import registry `bundleModuleImports`
(`ts.Map<ts.Map<string>>`): an insertion-ordered association of module
names to the list of binding names registered for that module. -/
abbrev Registry := List (String × List String)

/-- The mutable per-build state of `BundleBuilder`, plus `emissionOrder`,
a specification-only trace recording, in order, the (file name, edited
text) of every body appended to `bundleCodeText` (each entry corresponds
to one `bundleCodeText += editText + "\n"` at line 540). -/
structure BuilderState where
  bundleCodeText : String
  bundleImportText : String
  bundleImportedFiles : List String
  bundleModuleImports : Registry
  bundleSourceFiles : List (String × String)
  /-- The local `allDependencies` map of `build` (lines 259, 289-293); it is
  written by the merge loop and never read afterwards. -/
  allDependencies : List (String × List Node)
  emissionOrder : List (String × String)
deriving DecidableEq

def initialState : BuilderState :=
  { bundleCodeText := ""
    bundleImportText := ""
    bundleImportedFiles := []
    bundleModuleImports := []
    bundleSourceFiles := []
    allDependencies := []
    emissionOrder := [] }

/-- `BundleBuilder.whiteOut` (lines 512-524): replace `text[pos:end]` with
`end - pos` spaces.  `substring(0, pos)` / `substring(end)` clamp to the
string bounds and JavaScript's negative loop bound coincides with
truncated `Nat` subtraction, so `take` / `drop` / `replicate` are exact. -/
def whiteOut (pos endPos : Nat) (text : String) : String :=
  String.mk (text.data.take pos ++ List.replicate (endPos - pos) ' ' ++ text.data.drop endPos)

/-- `BundleBuilder.isCodeSourceFile` (lines 552-555): a parsed file always
has `kind === SyntaxKind.SourceFile`, so only the declaration-file flag
decides. -/
def isCodeSourceFile (file : SourceFile) : Bool :=
  !file.isDeclarationFile

/-- Whether the node's kind is `ImportDeclaration`,
`ImportEqualsDeclaration` or `ExportDeclaration` (the test at lines 470
and 101). -/
def isImportOrExportKind (n : Node) : Bool :=
  match n.payload with
  | NodePayload.importDecl _ _ _ => true
  | NodePayload.importEquals _ _ _ => true
  | NodePayload.exportDecl => true
  | _ => false

/-- The `ts.forEachChild` callback body of
`BundleBuilder.processImportExports` (lines 469-507) for one node,
threading the edited text.  `none` models a thrown exception
(`modifiers[0]` read on a missing modifier list). -/
def processNode (bundle : Bundle) (editText : String) (node : Node) : Option String :=
  if isImportOrExportKind node then
    match node.moduleSymbol with
    | some s =>
        -- `isCodeModule(moduleSymbol) || this.isAmbientModule` — the right
        -- operand is a truthy method reference (see `isAmbientModuleRef`).
        if isCodeModule s || isAmbientModuleRef then
          some (whiteOut node.pos node.endPos editText)
        else
          some editText
    | none => some editText
  else
    if bundle.config.package.packageType = BundlePackageType.component then
      match node.payload with
      | NodePayload.moduleDecl name =>
          if name ≠ bundle.config.package.packageNamespace then
            if node.flagExport then
              match node.modifiers with
              | [] => none
              | m :: _ => some (whiteOut m.pos m.endPos editText)
            else some editText
          else some editText
      | _ =>
          if node.flagExport then
            match node.modifiers with
            | [] => none
            | m :: _ => some (whiteOut m.pos m.endPos editText)
          else some editText
    else some editText

/-- Fold of `processNode` over a node list in order. -/
def processNodes (bundle : Bundle) (editText : String) : List Node → Option String
  | [] => some editText
  | n :: rest =>
      match processNode bundle editText n with
      | some t => processNodes bundle t rest
      | none => none

/-- `BundleBuilder.processImportExports` (lines 465-510). -/
def processImportExports (bundle : Bundle) (file : SourceFile) : Option String :=
  processNodes bundle file.text file.nodes

/-- `BundleBuilder.addModuleImport` (lines 376-391): register a
(module name, import name) pair, returning whether it was new, together
with the updated registry. -/
def addModuleImport (imports : Registry) (moduleName importName : String) :
    Bool × Registry :=
  match imports.find? (fun p => p.1 == moduleName) with
  | none => (true, imports ++ [(moduleName, [importName])])
  | some p =>
      if importName ∈ p.2 then
        (false, imports)
      else
        (true, imports.map (fun q =>
          if q.1 == moduleName then (q.1, q.2 ++ [importName]) else q))

/-- Whether a (module, binding) pair is already recorded (two chained
`hasProperty` tests in the original). -/
def hasModuleImport (imports : Registry) (moduleName importName : String) : Bool :=
  match imports.find? (fun p => p.1 == moduleName) with
  | some p => importName ∈ p.2
  | none => false

/-- `BundleBuilder.getImportModuleName` (lines 364-374). -/
def getImportModuleName (moduleRef : ModuleReferenceKind) : String :=
  match moduleRef with
  | ModuleReferenceKind.externalModuleReference exprText => exprText
  | ModuleReferenceKind.entityName text => text

/-- One step of the named-element loop inside `writeImportDeclaration`
(lines 432-450): state is (importToWrite, hasNamedBindings, registry). -/
def addNamedElement (moduleName : String) (state : String × Bool × Registry)
    (element : ImportSpecifier) : String × Bool × Registry :=
  let (s, hasNamed, regs) := state
  let (added, regs') := addModuleImport regs moduleName element.name
  if added then
    let s := if hasNamed then s ++ ", " else s
    let s := match element.propertyName with
      | some aliasName => s ++ aliasName ++ " as " ++ element.name
      | none => s ++ element.name
    (s, true, regs')
  else (s, hasNamed, regs')

/-- The pure core of `writeImportDeclaration` (lines 399-462): from the
registry and the import clause, compute the updated registry and,
when at least one binding survived deduplication, the reconstructed import
statement text. -/
def importDeclEmit (regs : Registry) (clause : ImportClause)
    (moduleName moduleSpecSrc : String) : Registry × Option String :=
  let s0 := "import "
  let (s1, hasDefault, regs1) :=
    match clause.name with
    | some nm =>
        let (added, regs') := addModuleImport regs moduleName nm
        if added then (s0 ++ nm, true, regs') else (s0, false, regs')
    | none => (s0, false, regs)
  let (s2, hasNamed, regs2) :=
    match clause.namedBindings with
    | some (NamedBindings.namespaceImport nm) =>
        let (added, regs') := addModuleImport regs1 moduleName nm
        if added then
          ((if hasDefault then s1 ++ ", " else s1) ++ "* as " ++ nm, true, regs')
        else (s1, false, regs')
    | some (NamedBindings.namedImports elements) =>
        let sOpen := (if hasDefault then s1 ++ ", " else s1) ++ "\x7b "
        let (s, hasNamed, regs') :=
          elements.foldl (addNamedElement moduleName) (sOpen, false, regs1)
        (s ++ " \x7d", hasNamed, regs')
    | none => (s1, false, regs1)
  let s3 := s2 ++ " from " ++ moduleSpecSrc ++ ";"
  if hasDefault || hasNamed then (regs2, some s3) else (regs2, none)

/-- `BundleBuilder.writeImportDeclaration` (lines 393-463).  A node without
an import clause returns immediately; an emitted statement goes through
`emitModuleImportDeclaration` (`bundleImportText += text + "\n"`). -/
def writeImportDeclaration (st : BuilderState) (node : Node) : BuilderState :=
  match node.payload with
  | NodePayload.importDecl (some clause) moduleName moduleSpecSrc =>
      match importDeclEmit st.bundleModuleImports clause moduleName moduleSpecSrc with
      | (regs, none) => { st with bundleModuleImports := regs }
      | (regs, some line) =>
          { st with
              bundleModuleImports := regs
              bundleImportText := st.bundleImportText ++ line ++ "\n" }
  | _ => st

/-- `BundleBuilder.addSourceFile` (lines 532-550).  `none` models a thrown
exception from `processImportExports`. -/
def addSourceFile (bundle : Bundle) (file : SourceFile) (st : BuilderState) :
    Option BuilderState :=
  if isCodeSourceFile file then
    match processImportExports bundle file with
    | some editText =>
        some { st with
          bundleCodeText := st.bundleCodeText ++ editText ++ "\n"
          bundleImportedFiles := st.bundleImportedFiles ++ [file.fileName]
          emissionOrder := st.emissionOrder ++ [(file.fileName, editText)] }
    | none => none
  else
    if st.bundleSourceFiles.any (fun p => p.1 == file.fileName) then some st
    else some { st with bundleSourceFiles := st.bundleSourceFiles ++ [(file.fileName, file.text)] }

/-- The body of the dependency loop of `build` for one import node
(lines 300-330).  `none` models the exception the original throws when
`getSymbolFromNode` returns `undefined` (`isCodeModule` then dereferences
it), and propagated exceptions from `addSourceFile`. -/
def processDepNode (prog : Program) (bundle : Bundle) (st : BuilderState)
    (node : Node) : Option BuilderState :=
  match node.moduleSymbol with
  | none => none
  | some sym =>
      if isCodeModule sym then
        match sym.decl with
        | ModuleRefDecl.sourceFileDecl importedSourceFileName _ =>
            if importedSourceFileName ∈ st.bundleImportedFiles then some st
            else
              match prog.getSourceFile importedSourceFileName with
              | some importedSource => addSourceFile bundle importedSource st
              | none => none
        | _ => some st
      else
        match node.payload with
        | NodePayload.importEquals importName moduleRef srcText =>
            let moduleName := getImportModuleName moduleRef
            let (added, regs) := addModuleImport st.bundleModuleImports moduleName importName
            let st' := { st with bundleModuleImports := regs }
            if added then
              some { st' with bundleImportText := st'.bundleImportText ++ srcText ++ "\n" }
            else some st'
        | _ => some (writeImportDeclaration st node)

/-- The inner `forEach` over one dependency key's node list. -/
def processImportNodes (prog : Program) (bundle : Bundle) (st : BuilderState) :
    List Node → Option BuilderState
  | [] => some st
  | n :: rest =>
      match processDepNode prog bundle st n with
      | some st' => processImportNodes prog bundle st' rest
      | none => none

/-- The `for depKey in sourceDependencies` loop (lines 298-331); the key
itself is never used, only its node list. -/
def processDependencies (prog : Program) (bundle : Bundle) (st : BuilderState) :
    List (String × List Node) → Option BuilderState
  | [] => some st
  | (_, nodes) :: rest =>
      match processImportNodes prog bundle st nodes with
      | some st' => processDependencies prog bundle st' rest
      | none => none

/-- The first-registration-wins merge of per-entry dependency maps into
`allDependencies` (lines 289-293). -/
def mergeFirstWins (allDeps sd : List (String × List Node)) :
    List (String × List Node) :=
  sd.foldl (fun acc kv =>
    if acc.any (fun p => p.1 == kv.1) then acc else acc ++ [kv]) allDeps

/-- Outcome of the entry-file loop of `build`: an early failure return
(line 273) or the final state plus the `isBundleTsx` flag. -/
inductive LoopOutcome where
  | failed (diagnostics : List Diagnostic)
  | done (st : BuilderState) (isBundleTsx : Bool)
deriving DecidableEq

/-- The `for filesKey in bundle.fileNames` loop of `build`
(lines 261-337), parameterised by the dependency builder's
`getSourceFileDependencies` (`deps`). -/
def processEntries (prog : Program) (deps : SourceFile → List (String × List Node))
    (bundle : Bundle) : List String → BuilderState → Bool → Option LoopOutcome
  | [], st, isTsx => some (LoopOutcome.done st isTsx)
  | fileName :: rest, st, isTsx =>
      match prog.getSourceFile fileName with
      | none => some (LoopOutcome.failed [createDiagnostic6060 fileName])
      | some bundleSourceFile =>
          let isTsx := isTsx || bundleSourceFile.languageVariant == LanguageVariant.jsx
          let sd := deps bundleSourceFile
          let st := { st with allDependencies := mergeFirstWins st.allDependencies sd }
          match processDependencies prog bundle st sd with
          | none => none
          | some st =>
              match addSourceFile bundle bundleSourceFile st with
              | none => none
              | some st => processEntries prog deps bundle rest st isTsx

/-- The destination path computed at lines 238-245.  The `path` library
(`dirname`, `join`, slash normalisation) and the `outDir` juggling are
platform collaborators outside the analysed core (spec section 1); the
resulting base path is modelled as the bundle's name. -/
def bundleFilePathOf (bundle : Bundle) : String :=
  bundle.name

/-- `BundleBuilder.build` (lines 231-362): run the entry loop, then
assemble preamble + (optionally namespace-wrapped) body, pick the
extension from the `isBundleTsx` flag, and return a `BundleResult`.
`none` models a thrown exception. -/
def build (prog : Program) (deps : SourceFile → List (String × List Node))
    (bundle : Bundle) : Option BundleResult :=
  match processEntries prog deps bundle bundle.fileNames initialState false with
  | none => none
  | some (LoopOutcome.failed ds) =>
      some { status := ExitStatus.diagnosticsPresentOutputsSkipped
             diagnostics := some ds
             bundleFile := none }
  | some (LoopOutcome.done st isTsx) =>
      let bundleText :=
        if bundle.config.package.packageType = BundlePackageType.library then
          st.bundleImportText
            ++ ("export namespace " ++ bundle.config.package.packageNamespace ++ " \x7b\r\n")
            ++ st.bundleCodeText
            ++ " \r\n\x7d"
        else
          st.bundleImportText ++ st.bundleCodeText
      let bundleExtension := if isTsx then ".tsx" else ".ts"
      some { status := ExitStatus.success
             diagnostics := none
             bundleFile := some
               { path := bundleFilePathOf bundle ++ bundleExtension
                 extension := bundleExtension
                 text := bundleText } }

/-! ## Specification-side definitions -/

/-- Successive-call accounting for `addModuleImport`: the number of calls
in `calls` (played left to right against an evolving registry) that
concern the pair (moduleName, importName) and return `true`.  Each `true`
return is exactly one binding emission into the preamble
(`writeImportDeclaration` and the `ImportEqualsDeclaration` path emit a
binding only under a `true` return). -/
def countTrue (regs : Registry) (calls : List (String × String))
    (moduleName importName : String) : Nat :=
  match calls with
  | [] => 0
  | (cm, cn) :: rest =>
      (if cm = moduleName ∧ cn = importName ∧ (addModuleImport regs cm cn).1 = true
       then 1 else 0)
        + countTrue (addModuleImport regs cm cn).2 rest moduleName importName

/-- The file names of the bodies appended to `bundleCodeText`, in order. -/
def emittedNames (st : BuilderState) : List String :=
  st.emissionOrder.map Prod.fst

/-- How many times file `f`'s body has been appended to the bundle body. -/
def countEmis (f : String) (st : BuilderState) : Nat :=
  (emittedNames st).count f

/-- Index of the first occurrence of `f` in an emission-name list. -/
def firstEmitIdx : List String → String → Nat
  | [], _ => 0
  | x :: xs, f => if x = f then 0 else firstEmitIdx xs f + 1

/-- The concatenation of the emitted bodies, each followed by a newline;
`bundleCodeText` always equals this applied to `emissionOrder`. -/
def concatBodies (l : List (String × String)) : String :=
  l.foldl (fun acc p => acc ++ p.2 ++ "\n") ""

/-- The internal-code target of an import node, when there is one: the
node's symbol resolves to a non-declaration source-file declaration and
the program holds a matching non-declaration file. -/
def nodeCodeTarget (prog : Program) (n : Node) : Option String :=
  match n.moduleSymbol with
  | some s =>
      match s.decl with
      | ModuleRefDecl.sourceFileDecl fn isDecl =>
          if isDecl then none
          else
            match prog.getSourceFile fn with
            | some f => if f.isDeclarationFile then none else some fn
            | none => none
      | _ => none
  | none => none

/-- The internal code units that unit `name`'s own top-level import nodes
resolve to: `b ∈ internalTargets prog a` is the claims' relation "A imports
B" between internal units. -/
def internalTargets (prog : Program) (name : String) : List String :=
  match prog.getSourceFile name with
  | some f => f.nodes.filterMap (nodeCodeTarget prog)
  | none => []

/-- Modelled from the spec: the postcondition of the Dependency Graph
Walker (`DependencyBuilder.getSourceFileDependencies`), which is not part
of the analysed source.  Spec section 4.5: the walk is depth-first,
memoised, and lists dependencies before dependents; on the flattened node
lists of one entry's dependency map this says (a) every node whose target
is an internal code unit `a` is preceded by nodes covering each internal import
of `a`, and (b) every internal import of the entry unit itself is
covered by some node of the list. -/
def flattenNodes (sd : List (String × List Node)) : List Node :=
  (sd.map Prod.snd).flatten

def entryContractB (prog : Program) (sd : List (String × List Node))
    (entryName : String) : Bool :=
  let N := flattenNodes sd
  ((List.range N.length).all fun j =>
    match N.get? j with
    | some n =>
        match nodeCodeTarget prog n with
        | some a =>
            (internalTargets prog a).all fun b =>
              (List.range j).any fun i =>
                match N.get? i with
                | some m => nodeCodeTarget prog m == some b
                | none => false
        | none => true
    | none => true)
  && ((internalTargets prog entryName).all fun b =>
        N.any fun m => nodeCodeTarget prog m == some b)

/-- Modelled from the spec: the walker contract holds for every entry
unit of the bundle. -/
def depsContractB (prog : Program) (deps : SourceFile → List (String × List Node))
    (bundle : Bundle) : Bool :=
  bundle.fileNames.all fun name =>
    match prog.getSourceFile name with
    | some f => entryContractB prog (deps f) f.fileName
    | none => true

/-- `true` exactly when the symbol's declaration is a declaration-only
source unit. -/
def isDeclarationOnly (s : Symbol) : Bool :=
  match s.decl with
  | ModuleRefDecl.sourceFileDecl _ isDecl => isDecl
  | _ => false

/-- The spec's `ModuleReference` classification result (section 3). -/
inductive ModuleReference where
  | internal
  | ambientDeclaration
  | external
deriving DecidableEq

/-- Modelled from the spec (section 4.1, Import Classifier): Internal when
the resolved declaration is an emittable source unit; AmbientDeclaration
when the declaration is an ambient namespace/module declaration or a
declaration-only unit; anything else (no literal specifier, unresolved
symbol, or external package) classifies External. -/
def classify (n : Node) : ModuleReference :=
  match n.moduleSymbol with
  | none => ModuleReference.external
  | some s =>
      if isCodeModule s then ModuleReference.internal
      else if isAmbientModule s || isDeclarationOnly s then
        ModuleReference.ambientDeclaration
      else ModuleReference.external

/-! ## Concrete inputs used by witnesses and counterexamples -/

/-- An import-declaration node whose specifier resolves to the internal
code unit `target`. -/
def mkImportNode (target : String) (pos endPos : Nat) : Node :=
  { payload := NodePayload.importDecl
      (some { name := none, namedBindings := none }) target ("'" ++ target ++ "'")
    pos := pos
    endPos := endPos
    flagExport := false
    modifiers := []
    moduleSymbol := some { decl := ModuleRefDecl.sourceFileDecl target false } }

def mkCodeFile (name text : String) (nodes : List Node) : SourceFile :=
  { fileName := name, text := text, languageVariant := LanguageVariant.standard
    isDeclarationFile := false, nodes := nodes }

def componentConfig (ns : String) : BundleConfig :=
  { outDir := none
    package := { packageType := BundlePackageType.component, packageNamespace := ns } }

def nodeC1 : Node := mkImportNode "b.ts" 0 2
def fileC1b : SourceFile := mkCodeFile "b.ts" "B" []
def fileC1a : SourceFile := mkCodeFile "a.ts" "aaX" [nodeC1]
def progC1 : Program := { files := [fileC1a, fileC1b] }
def bundleC1 : Bundle :=
  { name := "out", fileNames := ["a.ts", "b.ts"], config := componentConfig "NS" }
def depsC1 : SourceFile → List (String × List Node) :=
  fun f => if f.fileName = "a.ts" then [("b.ts", [nodeC1])] else []

def nodeC2 : Node := mkImportNode "b.ts" 0 2
def fileC2b : SourceFile := mkCodeFile "b.ts" "B" []
def fileC2a : SourceFile := mkCodeFile "a.ts" "aaX" [nodeC2]
def progC2 : Program := { files := [fileC2a, fileC2b] }
def bundleC2 : Bundle :=
  { name := "out", fileNames := ["a.ts"], config := componentConfig "NS" }
def depsC2 : SourceFile → List (String × List Node) :=
  fun f => if f.fileName = "a.ts" then [("b.ts", [nodeC2])] else []

/-- Cyclic program: `a.ts` imports `b.ts` and `b.ts` imports `a.ts`. -/
def nodeC2xToB : Node := mkImportNode "b.ts" 0 2
def nodeC2xToA : Node := mkImportNode "a.ts" 0 2
def fileC2xa : SourceFile := mkCodeFile "a.ts" "aa" [nodeC2xToB]
def fileC2xb : SourceFile := mkCodeFile "b.ts" "bb" [nodeC2xToA]
def progC2x : Program := { files := [fileC2xa, fileC2xb] }
def bundleC2x : Bundle :=
  { name := "out", fileNames := ["a.ts"], config := componentConfig "NS" }
/-- The dependency map the memoised walker yields on the cycle (section
4.5: a back-edge to an already-seen unit does not re-enter recursion;
first-encountered-first-emitted). -/
def depsC2x : SourceFile → List (String × List Node) :=
  fun f =>
    if f.fileName = "a.ts" then [("b.ts", [nodeC2xToB]), ("a.ts", [nodeC2xToA])] else []

def nodeC3 : Node := mkImportNode "x.ts" 0 1
def fileC3 : SourceFile := mkCodeFile "f.ts" "ab" [nodeC3]
def bundleC3 : Bundle :=
  { name := "out", fileNames := ["f.ts"], config := componentConfig "NS" }

def progC5 : Program := { files := [] }
def bundleC5 : Bundle :=
  { name := "out", fileNames := ["missing.ts"], config := componentConfig "NS" }
def depsC5 : SourceFile → List (String × List Node) := fun _ => []

/-- An import node with a string-literal specifier that does not resolve
to any symbol (spec section 4.1: classified External). -/
def nodeC6 : Node :=
  { payload := NodePayload.importDecl
      (some { name := none, namedBindings := none }) "m" "'m'"
    pos := 0
    endPos := 6
    flagExport := false
    modifiers := []
    moduleSymbol := none }
def fileC6 : SourceFile := mkCodeFile "f.ts" "IMPORT" [nodeC6]
def bundleC6 : Bundle :=
  { name := "out", fileNames := ["f.ts"], config := componentConfig "NS" }
def nodeC6w : Node := mkImportNode "x.ts" 0 2
def fileC6w : SourceFile := mkCodeFile "g.ts" "abX" [nodeC6w]

def fileC7 : SourceFile := mkCodeFile "a.ts" "X" []
def progC7 : Program := { files := [fileC7] }
def bundleC7 : Bundle :=
  { name := "out", fileNames := ["a.ts"]
    config :=
      { outDir := none
        package := { packageType := BundlePackageType.library, packageNamespace := "Foo" } } }
def depsC7 : SourceFile → List (String × List Node) := fun _ => []

def nodeC8 : Node :=
  { payload := NodePayload.moduleDecl "M"
    pos := 0
    endPos := 9
    flagExport := true
    modifiers := [{ pos := 0, endPos := 6 }]
    moduleSymbol := none }
def nodeC8b : Node :=
  { payload := NodePayload.otherNode
    pos := 0
    endPos := 9
    flagExport := true
    modifiers := [{ pos := 0, endPos := 6 }]
    moduleSymbol := none }
def bundleC8 : Bundle :=
  { name := "out", fileNames := [], config := componentConfig "NS" }

def nodeC9 : Node := mkImportNode "b.tsx" 0 2
def fileC9b : SourceFile :=
  { fileName := "b.tsx", text := "B", languageVariant := LanguageVariant.jsx
    isDeclarationFile := false, nodes := [] }
def fileC9a : SourceFile := mkCodeFile "a.ts" "aaX" [nodeC9]
def progC9 : Program := { files := [fileC9a, fileC9b] }
def bundleC9 : Bundle :=
  { name := "out", fileNames := ["a.ts"], config := componentConfig "NS" }
def depsC9 : SourceFile → List (String × List Node) :=
  fun f => if f.fileName = "a.ts" then [("b.tsx", [nodeC9])] else []

/-- The builder state after processing `bundleC7`'s single entry. -/
def stC7 : BuilderState :=
  { bundleCodeText := "X\n"
    bundleImportText := ""
    bundleImportedFiles := ["a.ts"]
    bundleModuleImports := []
    bundleSourceFiles := []
    allDependencies := []
    emissionOrder := [("a.ts", "X")] }

/-- The builder state after processing `bundleC9`'s single entry: the JSX
dependency `b.tsx` has been emitted, the entry `a.ts` after it. -/
def stC9 : BuilderState :=
  { bundleCodeText := "B\n  X\n"
    bundleImportText := ""
    bundleImportedFiles := ["b.tsx", "a.ts"]
    bundleModuleImports := []
    bundleSourceFiles := []
    allDependencies := [("b.tsx", [nodeC9])]
    emissionOrder := [("b.tsx", "B"), ("a.ts", "  X")] }

/-- `bundleCodeText` is the concatenation of the emitted bodies, and the
"seen" set `bundleImportedFiles` holds exactly the emitted file names. -/
def BaseInv (st : BuilderState) : Prop :=
  st.bundleCodeText = concatBodies st.emissionOrder ∧
  ∀ g : String, g ∈ emittedNames st ↔ g ∈ st.bundleImportedFiles

/-- Dependency-before-dependent on the emission trace: whenever an emitted
unit A imports internal unit B, B has been emitted and B's first body
strictly precedes A's first body. -/
def OrderInv (prog : Program) (st : BuilderState) : Prop :=
  ∀ A B : String, B ∈ internalTargets prog A → A ∈ emittedNames st →
    B ∈ emittedNames st ∧
    firstEmitIdx (emittedNames st) B < firstEmitIdx (emittedNames st) A

/-- Every internal-code target of an already-processed dependency node is
in the seen set. -/
def PrefixCovered (prog : Program) (processed : List Node) (st : BuilderState) : Prop :=
  ∀ m ∈ processed, ∀ B : String, nodeCodeTarget prog m = some B →
    B ∈ st.bundleImportedFiles

/-- The builder state after processing `bundleC1` (entries a.ts, b.ts):
the entry b.ts, already emitted as a dependency of a.ts, is emitted a
second time by the unguarded `addSourceFile` at line 334. -/
def stC1 : BuilderState :=
  { bundleCodeText := "B\n  X\nB\n"
    bundleImportText := ""
    bundleImportedFiles := ["b.ts", "a.ts", "b.ts"]
    bundleModuleImports := []
    bundleSourceFiles := []
    allDependencies := [("b.ts", [nodeC1])]
    emissionOrder := [("b.ts", "B"), ("a.ts", "  X"), ("b.ts", "B")] }

/-- The builder state after processing `bundleC2` (entry a.ts importing
b.ts): dependency first, entry second. -/
def stC2w : BuilderState :=
  { bundleCodeText := "B\n  X\n"
    bundleImportText := ""
    bundleImportedFiles := ["b.ts", "a.ts"]
    bundleModuleImports := []
    bundleSourceFiles := []
    allDependencies := [("b.ts", [nodeC2])]
    emissionOrder := [("b.ts", "B"), ("a.ts", "  X")] }

/-- The builder state after processing the cyclic `bundleC2x`: both units
emitted once by the dependency walk (first-encountered order b.ts then
a.ts), plus the entry a.ts re-emitted by the unguarded entry add. -/
def stC2x : BuilderState :=
  { bundleCodeText := "  \n  \n  \n"
    bundleImportText := ""
    bundleImportedFiles := ["b.ts", "a.ts", "a.ts"]
    bundleModuleImports := []
    bundleSourceFiles := []
    allDependencies := [("b.ts", [nodeC2xToB]), ("a.ts", [nodeC2xToA])]
    emissionOrder := [("b.ts", "  "), ("a.ts", "  "), ("a.ts", "  ")] }

/-! ## Well-formedness of spans -/

/-- All spans carried by a node (its own and its modifiers') lie within a
text of length `L`, start before end. -/
def NodeSpansLe (n : Node) (L : Nat) : Prop :=
  n.pos ≤ n.endPos ∧ n.endPos ≤ L ∧
    ∀ m ∈ n.modifiers, m.pos ≤ m.endPos ∧ m.endPos ≤ L

instance (n : Node) (L : Nat) : Decidable (NodeSpansLe n L) := by
  unfold NodeSpansLe; infer_instance

/-- Every top-level node of the file carries spans that are offsets into
the file's text (which is how the parser produces them). -/
def WellFormedFile (file : SourceFile) : Prop :=
  ∀ n ∈ file.nodes, NodeSpansLe n file.text.length

instance (file : SourceFile) : Decidable (WellFormedFile file) := by
  unfold WellFormedFile; infer_instance

/-! ## Basic properties of `whiteOut` -/

theorem whiteOut_data (pos endPos : Nat) (text : String) :
    (whiteOut pos endPos text).data
      = text.data.take pos ++ List.replicate (endPos - pos) ' ' ++ text.data.drop endPos := rfl

theorem string_length_eq_data (s : String) : s.length = s.data.length := rfl

theorem whiteOut_length {pos endPos : Nat} {text : String}
    (h1 : pos ≤ endPos) (h2 : endPos ≤ text.length) :
    (whiteOut pos endPos text).length = text.length := by
  rw [string_length_eq_data, string_length_eq_data, whiteOut_data]
  rw [string_length_eq_data] at h2
  simp only [List.length_append, List.length_take, List.length_replicate, List.length_drop]
  omega

theorem whiteOut_getElem?_eq (pos endPos i : Nat) (text : String)
    (h1 : pos ≤ endPos) (h2 : endPos ≤ text.length) :
    (whiteOut pos endPos text).data[i]?
      = if pos ≤ i ∧ i < endPos then some ' ' else text.data[i]? := by
  rw [string_length_eq_data] at h2
  rw [whiteOut_data]
  have h3 : pos ≤ text.data.length := le_trans h1 h2
  have hl1 : (text.data.take pos).length = pos := by rw [List.length_take]; omega
  have hl2 : (text.data.take pos ++ List.replicate (endPos - pos) ' ').length = endPos := by
    rw [List.length_append, hl1, List.length_replicate]; omega
  rw [List.getElem?_append, hl2, List.getElem?_append, hl1, List.getElem?_take,
    List.getElem?_replicate, List.getElem?_drop]
  split_ifs <;> first
    | rfl
    | omega
    | (congr 1; omega)

theorem whiteOut_getElem?_outside {pos endPos i : Nat} {text : String}
    (h1 : pos ≤ endPos) (h2 : endPos ≤ text.length)
    (h : i < pos ∨ endPos ≤ i) :
    (whiteOut pos endPos text).data[i]? = text.data[i]? := by
  rw [whiteOut_getElem?_eq pos endPos i text h1 h2]
  rw [if_neg]
  omega

theorem whiteOut_getElem?_inside {pos endPos i : Nat} {text : String}
    (h1 : pos ≤ endPos) (h2 : endPos ≤ text.length) (hl : pos ≤ i) (hr : i < endPos) :
    (whiteOut pos endPos text).data[i]? = some ' ' := by
  rw [whiteOut_getElem?_eq pos endPos i text h1 h2]
  rw [if_pos ⟨hl, hr⟩]

theorem whiteOut_preserves_space {pos endPos i : Nat} {text : String}
    (h1 : pos ≤ endPos) (h2 : endPos ≤ text.length)
    (hsp : text.data[i]? = some ' ') :
    (whiteOut pos endPos text).data[i]? = some ' ' := by
  rw [whiteOut_getElem?_eq pos endPos i text h1 h2]
  split_ifs
  · rfl
  · exact hsp

theorem processNode_length {bundle : Bundle} {editText : String} {node : Node} {t : String}
    (hn : NodeSpansLe node editText.length)
    (h : processNode bundle editText node = some t) : t.length = editText.length := by
  unfold processNode at h
  repeat' split at h
  all_goals (try cases h)
  all_goals first
    | rfl
    | exact whiteOut_length hn.1 hn.2.1
    | exact whiteOut_length (hn.2.2 _ (by simp_all)).1 (hn.2.2 _ (by simp_all)).2

theorem processNodes_length {bundle : Bundle} :
    ∀ (nodes : List Node) (editText : String) (t : String),
    (∀ n ∈ nodes, NodeSpansLe n editText.length) →
    processNodes bundle editText nodes = some t → t.length = editText.length := by
  intro nodes
  induction nodes with
  | nil => intro editText t _ h; injection h with h; subst h; rfl
  | cons n rest ih =>
      intro editText t hwf h
      unfold processNodes at h
      cases hp : processNode bundle editText n with
      | none => rw [hp] at h; cases h
      | some t1 =>
          rw [hp] at h
          have h1 : t1.length = editText.length :=
            processNode_length (hwf n (List.mem_cons_self n rest)) hp
          have := ih t1 t (by intro m hm; rw [h1]; exact hwf m (List.mem_cons_of_mem n hm)) h
          omega

theorem processImportExports_length {bundle : Bundle} {file : SourceFile} {t : String}
    (hwf : WellFormedFile file)
    (h : processImportExports bundle file = some t) : t.length = file.text.length :=
  processNodes_length file.nodes file.text t hwf h

/-! ## Registry (Import Deduplicator) lemmas -/

theorem registry_find?_map_update (l : Registry) (m m' n' : String) :
    (l.map (fun q => if q.1 == m' then (q.1, q.2 ++ [n']) else q)).find? (fun p => p.1 == m)
      = (l.find? (fun p => p.1 == m)).map
          (fun q => if q.1 == m' then (q.1, q.2 ++ [n']) else q) := by
  have hp : ((fun (p : String × List String) => p.1 == m)
        ∘ (fun q => if q.1 == m' then (q.1, q.2 ++ [n']) else q))
      = (fun (p : String × List String) => p.1 == m) := by
    funext q
    by_cases h : q.1 == m' <;> simp [Function.comp, h]
  rw [List.find?_map, hp]

theorem hasModuleImport_addModuleImport_self {regs : Registry} {m n : String}
    (h : hasModuleImport regs m n = false) :
    (addModuleImport regs m n).1 = true ∧
      hasModuleImport (addModuleImport regs m n).2 m n = true := by
  unfold hasModuleImport at h
  cases hf : regs.find? (fun p => p.1 == m) with
  | none =>
      refine ⟨by simp [addModuleImport, hf], ?_⟩
      simp only [addModuleImport, hasModuleImport, hf, List.find?_append]
      simp [List.find?_cons]
  | some p =>
      rw [hf] at h
      have hmem : n ∉ p.2 := by simpa using h
      have hpm : (p.1 == m) = true := by simpa using List.find?_some hf
      refine ⟨by simp [addModuleImport, hf, hmem], ?_⟩
      simp only [addModuleImport, hasModuleImport, hf, if_neg hmem,
        registry_find?_map_update, Option.map_some']
      simp [hpm]

theorem addModuleImport_dup {regs : Registry} {m n : String}
    (h : hasModuleImport regs m n = true) :
    addModuleImport regs m n = (false, regs) := by
  unfold hasModuleImport at h
  cases hf : regs.find? (fun p => p.1 == m) with
  | none => rw [hf] at h; cases h
  | some p =>
      rw [hf] at h
      simp only [addModuleImport, hf]
      rw [if_pos (by simpa using h)]

theorem hasModuleImport_mono {regs : Registry} {m n : String} (m' n' : String)
    (h : hasModuleImport regs m n = true) :
    hasModuleImport (addModuleImport regs m' n').2 m n = true := by
  unfold hasModuleImport at h
  cases hf : regs.find? (fun p => p.1 == m) with
  | none => rw [hf] at h; cases h
  | some p =>
      rw [hf] at h
      cases hf' : regs.find? (fun q => q.1 == m') with
      | none =>
          simp only [addModuleImport, hasModuleImport, hf', List.find?_append, hf,
            Option.or_some]
          exact h
      | some q =>
          by_cases hmem : n' ∈ q.2
          · simp only [addModuleImport, hasModuleImport, hf', if_pos hmem, hf]
            exact h
          · simp only [addModuleImport, hasModuleImport, hf', if_neg hmem,
              registry_find?_map_update, hf, Option.map_some']
            by_cases hq : p.1 == m'
            · simp only [hq, if_true]
              simp only [List.mem_append, decide_eq_true_eq]
              exact Or.inl (by simpa using h)
            · simp only [hq, Bool.false_eq_true, if_false]
              exact h

theorem countTrue_of_registered {m n : String} :
    ∀ (calls : List (String × String)) (regs : Registry),
      hasModuleImport regs m n = true → countTrue regs calls m n = 0 := by
  intro calls
  induction calls with
  | nil => intro regs _; rfl
  | cons c rest ih =>
      intro regs h
      obtain ⟨cm, cn⟩ := c
      have hif : ¬(cm = m ∧ cn = n ∧ (addModuleImport regs cm cn).1 = true) := by
        rintro ⟨rfl, rfl, hfst⟩
        rw [addModuleImport_dup h] at hfst
        cases hfst
      simp only [countTrue, if_neg hif, Nat.zero_add]
      exact ih _ (hasModuleImport_mono cm cn h)

theorem countTrue_le_one {m n : String} :
    ∀ (calls : List (String × String)) (regs : Registry),
      countTrue regs calls m n ≤ 1 := by
  intro calls
  induction calls with
  | nil => intro regs; exact Nat.zero_le 1
  | cons c rest ih =>
      intro regs
      obtain ⟨cm, cn⟩ := c
      by_cases hc : cm = m ∧ cn = n ∧ (addModuleImport regs cm cn).1 = true
      · simp only [countTrue, if_pos hc]
        obtain ⟨hm, hn, hfst⟩ := hc
        rw [hm, hn] at hfst ⊢
        have hreg : hasModuleImport (addModuleImport regs m n).2 m n = true := by
          cases h0 : hasModuleImport regs m n with
          | true => rw [addModuleImport_dup h0] at hfst; cases hfst
          | false => exact (hasModuleImport_addModuleImport_self h0).2
        rw [countTrue_of_registered rest _ hreg]
      · simp only [countTrue, if_neg hc, Nat.zero_add]
        exact ih (addModuleImport regs cm cn).2

/-! ## Claims -/

/-- Claim C3: for every text and every span (start before end, offsets
into the text), span blanking returns a text of exactly the same length,
with every character outside the span unchanged and every character
inside replaced by a space; consequently every unit's edited body has the
same length as its original text. -/
theorem claimC3 :
    (∀ (text : String) (pos endPos : Nat), pos ≤ endPos → endPos ≤ text.length →
      (whiteOut pos endPos text).length = text.length ∧
      (∀ i, i < pos ∨ endPos ≤ i → (whiteOut pos endPos text).data[i]? = text.data[i]?) ∧
      (∀ i, pos ≤ i → i < endPos → (whiteOut pos endPos text).data[i]? = some ' ')) ∧
    (∀ (bundle : Bundle) (file : SourceFile) (edited : String),
      WellFormedFile file → processImportExports bundle file = some edited →
      edited.length = file.text.length) := by
  constructor
  · intro text pos endPos h1 h2
    exact ⟨whiteOut_length h1 h2,
      fun i hi => whiteOut_getElem?_outside h1 h2 hi,
      fun i hl hr => whiteOut_getElem?_inside h1 h2 hl hr⟩
  · intro bundle file edited hwf h
    exact processImportExports_length hwf h

/-- Witness for C3 at text "abcd" with span (1,3), and at the concrete
one-node file `fileC3`. -/
theorem claimC3_witness :
    ((whiteOut 1 3 "abcd").length = "abcd".length ∧
     (whiteOut 1 3 "abcd").data[0]? = "abcd".data[0]? ∧
     (whiteOut 1 3 "abcd").data[1]? = some ' ') ∧
    " b".length = fileC3.text.length :=
  ⟨⟨(claimC3.1 "abcd" 1 3 (by decide) (by decide)).1,
    (claimC3.1 "abcd" 1 3 (by decide) (by decide)).2.1 0 (Or.inl (by decide)),
    (claimC3.1 "abcd" 1 3 (by decide) (by decide)).2.2 1 (by decide) (by decide)⟩,
   claimC3.2 bundleC3 fileC3 " b" (by decide) (by decide)⟩

/-- Claim C4: registering a (module specifier, binding name) pair returns
true and records the pair only on the first call for that pair, returns
false (leaving the registry unchanged) on every later call with the same
pair, and across any sequence of registrations at most one call for a
given pair returns true — hence at most one preamble emission per pair. -/
theorem claimC4 (regs : Registry) (moduleName importName : String) :
    (hasModuleImport regs moduleName importName = false →
      (addModuleImport regs moduleName importName).1 = true ∧
      hasModuleImport (addModuleImport regs moduleName importName).2
        moduleName importName = true) ∧
    (hasModuleImport regs moduleName importName = true →
      addModuleImport regs moduleName importName = (false, regs)) ∧
    (∀ calls, countTrue regs calls moduleName importName ≤ 1) := by
  exact ⟨fun h => hasModuleImport_addModuleImport_self h,
    fun h => addModuleImport_dup h,
    fun calls => countTrue_le_one calls regs⟩

/-- Witness for C4 on the empty registry, the pair ("fs", "readFile"),
and a call sequence that repeats the pair. -/
theorem claimC4_witness :
    ((addModuleImport [] "fs" "readFile").1 = true ∧
      hasModuleImport (addModuleImport [] "fs" "readFile").2 "fs" "readFile" = true) ∧
    countTrue [] [("fs", "readFile"), ("fs", "readFile")] "fs" "readFile" ≤ 1 :=
  ⟨(claimC4 [] "fs" "readFile").1 (by decide),
   (claimC4 [] "fs" "readFile").2.2 [("fs", "readFile"), ("fs", "readFile")]⟩

/-- Claim C10: an external import-declaration node with no import clause
(a side-effect-only `import "m";`) makes the binding rewriter emit
nothing to the preamble and register nothing: `writeImportDeclaration`
returns the state unchanged, with no error. -/
theorem claimC10 (st : BuilderState) (moduleName moduleSpecSrc : String)
    (pos endPos : Nat) (flagExport : Bool) (modifiers : List Span)
    (moduleSymbol : Option Symbol) :
    writeImportDeclaration st
      { payload := NodePayload.importDecl none moduleName moduleSpecSrc
        pos := pos
        endPos := endPos
        flagExport := flagExport
        modifiers := modifiers
        moduleSymbol := moduleSymbol } = st := rfl

/-- Claim C8: under Component packaging, a top-level namespace/module
declaration whose name differs from the bundle's configured target
namespace and that carries an export modifier has exactly that (first)
modifier's span blanked; every other top-level declaration carrying an
export modifier has that modifier's span blanked unconditionally; and
span blanking changes no character outside the blanked span. -/
theorem claimC8 (bundle : Bundle) (editText : String) (node : Node)
    (hcomp : bundle.config.package.packageType = BundlePackageType.component) :
    (∀ name m ms, node.payload = NodePayload.moduleDecl name →
      name ≠ bundle.config.package.packageNamespace →
      node.flagExport = true → node.modifiers = m :: ms →
      processNode bundle editText node = some (whiteOut m.pos m.endPos editText)) ∧
    (node.payload = NodePayload.otherNode → node.flagExport = true →
      ∀ m ms, node.modifiers = m :: ms →
      processNode bundle editText node = some (whiteOut m.pos m.endPos editText)) ∧
    (∀ (m : Span) (i : Nat), m.pos ≤ m.endPos → m.endPos ≤ editText.length →
      ((i < m.pos ∨ m.endPos ≤ i) →
        (whiteOut m.pos m.endPos editText).data[i]? = editText.data[i]?) ∧
      (m.pos ≤ i → i < m.endPos →
        (whiteOut m.pos m.endPos editText).data[i]? = some ' ')) := by
  refine ⟨?_, ?_, ?_⟩
  · intro name m ms hpay hname hflag hmods
    have hkind : isImportOrExportKind node = false := by
      unfold isImportOrExportKind; rw [hpay]
    simp only [processNode, hkind, Bool.false_eq_true, if_false, if_pos hcomp, hpay,
      hflag, hmods, if_pos hname, if_true]
  · intro hpay hflag m ms hmods
    have hkind : isImportOrExportKind node = false := by
      unfold isImportOrExportKind; rw [hpay]
    simp only [processNode, hkind, Bool.false_eq_true, if_false, if_pos hcomp, hpay,
      hflag, hmods, if_true]
  · intro m i h1 h2
    exact ⟨fun hi => whiteOut_getElem?_outside h1 h2 hi,
      fun hl hr => whiteOut_getElem?_inside h1 h2 hl hr⟩

/-- Witness for C8: an exported namespace `M` (differing from the
configured namespace "NS") and an exported non-namespace declaration,
both with the export modifier at span (0,6) in a 9-character text. -/
theorem claimC8_witness :
    processNode bundleC8 "exportXYZ" nodeC8 = some (whiteOut 0 6 "exportXYZ") ∧
    processNode bundleC8 "exportXYZ" nodeC8b = some (whiteOut 0 6 "exportXYZ") ∧
    (whiteOut 0 6 "exportXYZ").data[7]? = "exportXYZ".data[7]? ∧
    (whiteOut 0 6 "exportXYZ").data[0]? = some ' ' :=
  ⟨(claimC8 bundleC8 "exportXYZ" nodeC8 (by decide)).1 "M" { pos := 0, endPos := 6 } []
      rfl (by decide) rfl rfl,
   (claimC8 bundleC8 "exportXYZ" nodeC8b (by decide)).2.1 rfl rfl
      { pos := 0, endPos := 6 } [] rfl,
   ((claimC8 bundleC8 "exportXYZ" nodeC8 (by decide)).2.2 { pos := 0, endPos := 6 } 7
      (by decide) (by decide)).1 (Or.inr (by decide)),
   ((claimC8 bundleC8 "exportXYZ" nodeC8 (by decide)).2.2 { pos := 0, endPos := 6 } 0
      (by decide) (by decide)).2 (by decide) (by decide)⟩

theorem processEntries_append (prog : Program)
    (deps : SourceFile → List (String × List Node)) (bundle : Bundle)
    (as bs : List String) (st : BuilderState) (isTsx : Bool) :
    processEntries prog deps bundle (as ++ bs) st isTsx
      = match processEntries prog deps bundle as st isTsx with
        | none => none
        | some (LoopOutcome.failed ds) => some (LoopOutcome.failed ds)
        | some (LoopOutcome.done st' isTsx') =>
            processEntries prog deps bundle bs st' isTsx' := by
  induction as generalizing st isTsx with
  | nil => rfl
  | cons a rest ih =>
      simp only [List.cons_append, processEntries]
      cases h1 : prog.getSourceFile a with
      | none => rfl
      | some f =>
          simp only []
          cases h2 : processDependencies prog bundle
              { st with allDependencies := mergeFirstWins st.allDependencies (deps f) }
              (deps f) with
          | none => rfl
          | some st1 =>
              simp only []
              cases h3 : addSourceFile bundle f st1 with
              | none => rfl
              | some st2 => simpa using ih st2 (isTsx || f.languageVariant == LanguageVariant.jsx)

/-- Claim C5: if an entry file path cannot be resolved to a source unit,
`build` stops at that entry and returns a failure result carrying exactly
one diagnostic whose message names the missing path, with no output
text. -/
theorem claimC5 (prog : Program) (deps : SourceFile → List (String × List Node))
    (bundle : Bundle) (pre tail : List String) (bad : String)
    (st : BuilderState) (isTsx : Bool)
    (hnames : bundle.fileNames = pre ++ bad :: tail)
    (hpre : processEntries prog deps bundle pre initialState false
      = some (LoopOutcome.done st isTsx))
    (hbad : prog.getSourceFile bad = none) :
    build prog deps bundle
      = some { status := ExitStatus.diagnosticsPresentOutputsSkipped
               diagnostics := some [createDiagnostic6060 bad]
               bundleFile := none } ∧
    (createDiagnostic6060 bad).messageText
      = "Bundle source file '" ++ bad ++ "' not found." := by
  refine ⟨?_, rfl⟩
  unfold build
  rw [hnames, processEntries_append, hpre]
  simp only [processEntries, hbad]

/-- Witness for C5: a bundle whose single entry `missing.ts` is not in
the program. -/
theorem claimC5_witness :
    build progC5 depsC5 bundleC5
      = some { status := ExitStatus.diagnosticsPresentOutputsSkipped
               diagnostics := some [createDiagnostic6060 "missing.ts"]
               bundleFile := none } ∧
    (createDiagnostic6060 "missing.ts").messageText
      = "Bundle source file 'missing.ts' not found." :=
  claimC5 progC5 depsC5 bundleC5 [] [] "missing.ts" initialState false rfl rfl rfl

/-- Claim C7 counterexample: on a concrete Library bundle the emitted text
uses CRLF after the opening brace and a space plus CRLF before the closing
brace, so it is not byte-for-byte `export namespace Foo {\n<body>\n}`. -/
theorem claimC7_counterexample :
    build progC7 depsC7 bundleC7
      = some { status := ExitStatus.success
               diagnostics := none
               bundleFile := some
                 { path := "out.ts"
                   extension := ".ts"
                   text := "export namespace Foo \x7b\r\nX\n \r\n\x7d" } } ∧
    "export namespace Foo \x7b\r\nX\n \r\n\x7d"
      ≠ "export namespace Foo \x7b\nX\n\n\x7d" := by
  exact ⟨rfl, by decide⟩

/-- Claim C7 amended: under Library packaging with configured namespace N
the output text equals the preamble, then `export namespace N {\r\n`
(carriage return + line feed), then the concatenated edited bodies, then
` \r\n}` (a space, CRLF, closing brace), byte for byte. -/
theorem claimC7_amended (prog : Program)
    (deps : SourceFile → List (String × List Node)) (bundle : Bundle)
    (st : BuilderState) (isTsx : Bool)
    (hlib : bundle.config.package.packageType = BundlePackageType.library)
    (hdone : processEntries prog deps bundle bundle.fileNames initialState false
      = some (LoopOutcome.done st isTsx)) :
    build prog deps bundle = some
      { status := ExitStatus.success
        diagnostics := none
        bundleFile := some
          { path := bundleFilePathOf bundle ++ (if isTsx then ".tsx" else ".ts")
            extension := if isTsx then ".tsx" else ".ts"
            text := st.bundleImportText
              ++ ("export namespace " ++ bundle.config.package.packageNamespace
                    ++ " \x7b\r\n")
              ++ st.bundleCodeText ++ " \r\n\x7d" } } := by
  unfold build
  rw [hdone]
  simp only [if_pos hlib]

/-- Witness for the amended C7 at the concrete Library bundle. -/
theorem claimC7_amended_witness :
    build progC7 depsC7 bundleC7 = some
      { status := ExitStatus.success
        diagnostics := none
        bundleFile := some
          { path := bundleFilePathOf bundleC7 ++ (if false then ".tsx" else ".ts")
            extension := if false then ".tsx" else ".ts"
            text := stC7.bundleImportText
              ++ ("export namespace " ++ bundleC7.config.package.packageNamespace
                    ++ " \x7b\r\n")
              ++ stC7.bundleCodeText ++ " \r\n\x7d" } } :=
  claimC7_amended progC7 depsC7 bundleC7 stC7 false rfl rfl

/-- Claim C9 is right about the intent (the comment above the flag at
lines 254-255 reads "Look for tsx source files in bunle name or bundle
dependencies") but the code checks `languageVariant` only for entry
files: here the dependency `b.tsx` is markup-variant and is emitted into
the bundle, yet the result's extension is ".ts". -/
theorem claimC9_bug :
    (progC9.getSourceFile "b.tsx").map SourceFile.languageVariant
      = some LanguageVariant.jsx ∧
    processEntries progC9 depsC9 bundleC9 bundleC9.fileNames initialState false
      = some (LoopOutcome.done stC9 false) ∧
    ("b.tsx", "B") ∈ stC9.emissionOrder ∧
    build progC9 depsC9 bundleC9
      = some { status := ExitStatus.success
               diagnostics := none
               bundleFile := some
                 { path := "out.ts", extension := ".ts", text := "B\n  X\n" } } :=
  ⟨rfl, rfl, by decide, rfl⟩

/-! ## Space persistence through `processImportExports` (for C6) -/

theorem processNode_preserves_space {bundle : Bundle} {editText : String} {node : Node}
    {t : String} {i : Nat}
    (hn : NodeSpansLe node editText.length)
    (hsp : editText.data[i]? = some ' ')
    (h : processNode bundle editText node = some t) : t.data[i]? = some ' ' := by
  unfold processNode at h
  repeat' split at h
  all_goals (try cases h)
  all_goals first
    | exact hsp
    | exact whiteOut_preserves_space hn.1 hn.2.1 hsp
    | exact whiteOut_preserves_space (hn.2.2 _ (by simp_all)).1 (hn.2.2 _ (by simp_all)).2 hsp

theorem processNodes_preserves_space {bundle : Bundle} :
    ∀ (nodes : List Node) (editText t : String) (i : Nat),
    (∀ n ∈ nodes, NodeSpansLe n editText.length) →
    editText.data[i]? = some ' ' →
    processNodes bundle editText nodes = some t → t.data[i]? = some ' ' := by
  intro nodes
  induction nodes with
  | nil => intro editText t i _ hsp h; cases h; exact hsp
  | cons n rest ih =>
      intro editText t i hwf hsp h
      unfold processNodes at h
      cases hp : processNode bundle editText n with
      | none => rw [hp] at h; cases h
      | some t1 =>
          rw [hp] at h
          have h1 : t1.length = editText.length :=
            processNode_length (hwf n (List.mem_cons_self n rest)) hp
          exact ih t1 t i (by intro m hm; rw [h1]; exact hwf m (List.mem_cons_of_mem n hm))
            (processNode_preserves_space (hwf n (List.mem_cons_self n rest)) hsp hp) h

theorem processNodes_append (bundle : Bundle) (editText : String) (xs ys : List Node) :
    processNodes bundle editText (xs ++ ys)
      = match processNodes bundle editText xs with
        | some t => processNodes bundle t ys
        | none => none := by
  induction xs generalizing editText with
  | nil => rfl
  | cons n rest ih =>
      simp only [List.cons_append, processNodes]
      cases hp : processNode bundle editText n with
      | none => rfl
      | some t1 => exact ih t1

/-- A resolved import/export node is blanked by `processNode`: the
`isCodeModule s || isAmbientModule` condition is always true for a
resolved symbol because the right operand is a truthy method reference. -/
theorem processNode_blanks_resolved {bundle : Bundle} {editText : String} {node : Node}
    {s : Symbol}
    (hkind : isImportOrExportKind node = true)
    (hsym : node.moduleSymbol = some s) :
    processNode bundle editText node = some (whiteOut node.pos node.endPos editText) := by
  simp only [processNode, hkind, if_true, hsym, isAmbientModuleRef, Bool.or_true]

theorem classify_internal_or_ambient_isSome (n : Node)
    (h : classify n = ModuleReference.internal ∨
         classify n = ModuleReference.ambientDeclaration) :
    n.moduleSymbol.isSome = true := by
  cases hs : n.moduleSymbol with
  | some s => rfl
  | none =>
      unfold classify at h
      rw [hs] at h
      rcases h with h | h <;> cases h

/-- Claim C6 amended, blanking direction: any import/export node whose
specifier resolved to a symbol (in particular every node the spec
classifies Internal or AmbientDeclaration) has every character of its
span blanked in the edited unit body. -/
theorem claimC6_amended :
    (∀ n : Node, classify n = ModuleReference.internal ∨
        classify n = ModuleReference.ambientDeclaration → n.moduleSymbol.isSome = true) ∧
    (∀ (bundle : Bundle) (file : SourceFile) (node : Node) (edited : String) (i : Nat),
      WellFormedFile file → node ∈ file.nodes →
      isImportOrExportKind node = true → node.moduleSymbol.isSome = true →
      processImportExports bundle file = some edited →
      node.pos ≤ i → i < node.endPos → edited.data[i]? = some ' ') := by
  constructor
  · exact classify_internal_or_ambient_isSome
  · intro bundle file node edited i hwf hmem hkind hsome h hl hr
    obtain ⟨l1, l2, hsplit⟩ := List.append_of_mem hmem
    unfold processImportExports at h
    rw [hsplit] at h
    rw [processNodes_append] at h
    cases h1 : processNodes bundle file.text l1 with
    | none => rw [h1] at h; cases h
    | some t1 =>
        rw [h1] at h
        have ht1 : t1.length = file.text.length := by
          refine processNodes_length l1 file.text t1 ?_ h1
          intro m hm
          exact hwf m (by rw [hsplit]; exact List.mem_append_left _ hm)
        obtain ⟨s, hs⟩ := Option.isSome_iff_exists.mp hsome
        have hstep := @processNode_blanks_resolved bundle t1 node s hkind hs
        unfold processNodes at h
        rw [hstep] at h
        have hnode : NodeSpansLe node file.text.length :=
          hwf node (by rw [hsplit]; exact List.mem_append_right _ (List.mem_cons_self _ _))
        have hsp : (whiteOut node.pos node.endPos t1).data[i]? = some ' ' := by
          refine whiteOut_getElem?_inside hnode.1 ?_ hl hr
          rw [ht1]; exact hnode.2.1
        have hlen : (whiteOut node.pos node.endPos t1).length = t1.length :=
          whiteOut_length hnode.1 (by rw [ht1]; exact hnode.2.1)
        refine processNodes_preserves_space l2 _ edited i ?_ hsp h
        intro m hm
        rw [hlen, ht1]
        exact hwf m (by rw [hsplit]; exact List.mem_append_right _ (List.mem_cons_of_mem _ hm))

/-- Witness for the amended C6: the resolved import node of `fileC6w`
spans (0,2); position 1 of the edited body is a space. -/
theorem claimC6_amended_witness :
    nodeC6w.moduleSymbol.isSome = true ∧ "  X".data[1]? = some ' ' :=
  ⟨by decide,
   claimC6_amended.2 bundleC6 fileC6w nodeC6w "  X" 1 (by decide)
     (by decide) (by decide) (by decide) (by decide) (by decide) (by decide)⟩

/-- Claim C6 counterexample: an import node with a string-literal
specifier that resolves to no symbol is classified External by the spec,
yet its span is left in place (position 0 of the edited body is the
original 'I', not a space). -/
theorem claimC6_counterexample :
    classify nodeC6 = ModuleReference.external ∧
    nodeC6.pos = 0 ∧ 0 < nodeC6.endPos ∧
    processImportExports bundleC6 fileC6 = some "IMPORT" ∧
    "IMPORT".data[0]? = some 'I' ∧
    ¬ ("IMPORT".data[0]? = some ' ') :=
  ⟨rfl, rfl, by decide, rfl, rfl, by decide⟩

/-! ## Effect lemmas for the emission trace (for C1 and C2) -/

theorem writeImportDeclaration_fields (st : BuilderState) (n : Node) :
    (writeImportDeclaration st n).emissionOrder = st.emissionOrder ∧
    (writeImportDeclaration st n).bundleImportedFiles = st.bundleImportedFiles ∧
    (writeImportDeclaration st n).bundleCodeText = st.bundleCodeText := by
  unfold writeImportDeclaration
  repeat' split
  all_goals exact ⟨rfl, rfl, rfl⟩

theorem getSourceFile_fileName {prog : Program} {name : String} {f : SourceFile}
    (h : prog.getSourceFile name = some f) : f.fileName = name := by
  unfold Program.getSourceFile at h
  have := List.find?_some h
  simpa using this

theorem addSourceFile_spec {bundle : Bundle} {file : SourceFile} {st st' : BuilderState}
    (h : addSourceFile bundle file st = some st') :
    (∃ editText, isCodeSourceFile file = true ∧
      processImportExports bundle file = some editText ∧
      st'.emissionOrder = st.emissionOrder ++ [(file.fileName, editText)] ∧
      st'.bundleImportedFiles = st.bundleImportedFiles ++ [file.fileName] ∧
      st'.bundleCodeText = st.bundleCodeText ++ editText ++ "\n") ∨
    (isCodeSourceFile file = false ∧
      st'.emissionOrder = st.emissionOrder ∧
      st'.bundleImportedFiles = st.bundleImportedFiles ∧
      st'.bundleCodeText = st.bundleCodeText) := by
  unfold addSourceFile at h
  split at h
  · cases hpe : processImportExports bundle file with
    | none => rw [hpe] at h; cases h
    | some editText =>
        rw [hpe] at h
        cases h
        exact Or.inl ⟨editText, by assumption, rfl, rfl, rfl, rfl⟩
  · split at h
    · cases h
      refine Or.inr ⟨by simp_all, rfl, rfl, rfl⟩
    · cases h
      refine Or.inr ⟨by simp_all, rfl, rfl, rfl⟩

theorem nodeCodeTarget_eq_some {prog : Program} {n : Node} {B : String}
    (h : nodeCodeTarget prog n = some B) :
    ∃ s fg, n.moduleSymbol = some s ∧ s.decl = ModuleRefDecl.sourceFileDecl B false ∧
      prog.getSourceFile B = some fg ∧ fg.isDeclarationFile = false := by
  unfold nodeCodeTarget at h
  repeat' split at h
  all_goals (try cases h)
  rename_i xa s hms xb isDecl hIsDecl xc fg hfgnd hsdecl hget
  exact ⟨s, fg, hms, by simp_all, hget, by simp_all⟩

theorem nodeCodeTarget_none_of_not_code {prog : Program} {n : Node} {sym : Symbol}
    (hms : n.moduleSymbol = some sym) (hcm : ¬ isCodeModule sym = true)
    {B : String} (hB : nodeCodeTarget prog n = some B) : False := by
  obtain ⟨s', fg, hms', hdecl', _, _⟩ := nodeCodeTarget_eq_some hB
  rw [hms] at hms'
  injection hms' with hs'
  subst hs'
  apply hcm
  unfold isCodeModule
  rw [hdecl']
  rfl

theorem nodeCodeTarget_some_unique {prog : Program} {n : Node} {sym : Symbol}
    {fn : String} {isDecl : Bool}
    (hms : n.moduleSymbol = some sym)
    (hdecl : sym.decl = ModuleRefDecl.sourceFileDecl fn isDecl)
    {B : String} (hB : nodeCodeTarget prog n = some B) : B = fn := by
  obtain ⟨s', fg, hms', hdecl', _, _⟩ := nodeCodeTarget_eq_some hB
  rw [hms] at hms'
  injection hms' with hs'
  subst hs'
  rw [hdecl] at hdecl'
  injection hdecl' with h1 h2
  exact h1.symm

theorem processDepNode_spec {prog : Program} {bundle : Bundle} {st st' : BuilderState}
    {n : Node} (h : processDepNode prog bundle st n = some st') :
    ((st'.emissionOrder = st.emissionOrder ∧
      st'.bundleImportedFiles = st.bundleImportedFiles ∧
      st'.bundleCodeText = st.bundleCodeText) ∧
     (∀ B, nodeCodeTarget prog n = some B → B ∈ st.bundleImportedFiles)) ∨
    (∃ g fg editText,
      nodeCodeTarget prog n = some g ∧
      g ∉ st.bundleImportedFiles ∧
      prog.getSourceFile g = some fg ∧
      processImportExports bundle fg = some editText ∧
      st'.emissionOrder = st.emissionOrder ++ [(g, editText)] ∧
      st'.bundleImportedFiles = st.bundleImportedFiles ++ [g] ∧
      st'.bundleCodeText = st.bundleCodeText ++ editText ++ "\n") := by
  unfold processDepNode at h
  split at h
  next => cases h
  next sym hms =>
    by_cases hcm : isCodeModule sym
    · rw [if_pos hcm] at h
      cases hdecl : sym.decl with
      | moduleDeclarationDecl amb =>
          unfold isCodeModule at hcm
          rw [hdecl] at hcm
          cases hcm
      | otherDecl =>
          unfold isCodeModule at hcm
          rw [hdecl] at hcm
          cases hcm
      | sourceFileDecl fn isDecl =>
          have hdf : isDecl = false := by
            unfold isCodeModule at hcm
            rw [hdecl] at hcm
            simpa using hcm
          simp only [hdecl] at h
          by_cases hmem : fn ∈ st.bundleImportedFiles
          · rw [if_pos hmem] at h
            cases h
            left
            refine ⟨⟨rfl, rfl, rfl⟩, ?_⟩
            intro B hB
            rw [nodeCodeTarget_some_unique hms hdecl hB]
            exact hmem
          · rw [if_neg hmem] at h
            cases hsf : prog.getSourceFile fn with
            | none =>
                simp only [hsf] at h
                cases h
            | some fg =>
                simp only [hsf] at h
                rcases addSourceFile_spec h with
                  ⟨editText, hcode, hpe, he, hi, hc⟩ | ⟨hncode, he, hi, hc⟩
                · right
                  have hfn : fg.fileName = fn := getSourceFile_fileName hsf
                  have hfgnd : fg.isDeclarationFile = false := by
                    unfold isCodeSourceFile at hcode
                    simpa using hcode
                  refine ⟨fn, fg, editText, ?_, hmem, hsf, hpe, ?_, ?_, hc⟩
                  · unfold nodeCodeTarget
                    simp only [hms, hdecl, hdf, hsf, hfgnd]
                    simp
                  · rw [he, hfn]
                  · rw [hi, hfn]
                · left
                  refine ⟨⟨he, hi, hc⟩, ?_⟩
                  intro B hB
                  exfalso
                  obtain ⟨s', fg', hms', hdecl', hget', hnd'⟩ := nodeCodeTarget_eq_some hB
                  rw [hms] at hms'
                  injection hms' with hs'
                  subst hs'
                  rw [hdecl] at hdecl'
                  injection hdecl' with h1 h2
                  subst h1
                  rw [hsf] at hget'
                  injection hget' with hfg'
                  subst hfg'
                  unfold isCodeSourceFile at hncode
                  simp [hnd'] at hncode
    · rw [if_neg hcm] at h
      split at h
      next importName moduleRef srcText hpay =>
        cases hadd : addModuleImport st.bundleModuleImports
            (getImportModuleName moduleRef) importName with
        | mk added regs =>
            simp only [hadd] at h
            split at h <;>
              (cases h
               left
               exact ⟨⟨rfl, rfl, rfl⟩,
                 fun B hB =>
                   absurd hB (fun hB => nodeCodeTarget_none_of_not_code hms hcm hB)⟩)
      next hpay =>
        cases h
        obtain ⟨h1, h2, h3⟩ := writeImportDeclaration_fields st n
        exact Or.inl ⟨⟨h1, h2, h3⟩,
          fun B hB => absurd hB (fun hB => nodeCodeTarget_none_of_not_code hms hcm hB)⟩

/-! ## Emission-index and concatenation lemmas -/

theorem concatBodies_append_single (l : List (String × String)) (f e : String) :
    concatBodies (l ++ [(f, e)]) = concatBodies l ++ e ++ "\n" := by
  unfold concatBodies
  rw [List.foldl_append]
  rfl

theorem firstEmitIdx_append_of_mem {l : List String} {f : String} (h : f ∈ l)
    (l' : List String) : firstEmitIdx (l ++ l') f = firstEmitIdx l f := by
  induction l with
  | nil => cases h
  | cons x xs ih =>
      simp only [List.cons_append, firstEmitIdx, List.append_eq]
      by_cases hx : x = f
      · rw [if_pos hx, if_pos hx]
      · rw [if_neg hx, if_neg hx]
        have hmem : f ∈ xs := by
          cases h with
          | head => exact absurd rfl hx
          | tail _ hh => exact hh
        rw [ih hmem]

theorem firstEmitIdx_append_self {l : List String} {f : String} (h : f ∉ l) :
    firstEmitIdx (l ++ [f]) f = l.length := by
  induction l with
  | nil => simp [firstEmitIdx]
  | cons x xs ih =>
      simp only [List.cons_append, firstEmitIdx, List.length_cons, List.append_eq]
      have hx : ¬ x = f := by
        intro he
        exact h (by rw [he]; exact List.mem_cons_self f xs)
      rw [if_neg hx, ih (fun hf => h (List.mem_cons_of_mem x hf))]

theorem firstEmitIdx_lt_length {l : List String} {f : String} (h : f ∈ l) :
    firstEmitIdx l f < l.length := by
  induction l with
  | nil => cases h
  | cons x xs ih =>
      simp only [firstEmitIdx, List.length_cons]
      by_cases hx : x = f
      · rw [if_pos hx]; omega
      · rw [if_neg hx]
        have hmem : f ∈ xs := by
          cases h with
          | head => exact absurd rfl hx
          | tail _ hh => exact hh
        have := ih hmem
        omega

theorem get?_append_cons_length {α : Type} (l1 : List α) (a : α) (l2 : List α) :
    (l1 ++ a :: l2).get? l1.length = some a := by
  rw [List.get?_eq_getElem?, List.getElem?_append_right (le_refl _)]
  simp

theorem get?_append_left_of_lt {α : Type} {l1 : List α} {i : Nat}
    (h : i < l1.length) (l2 : List α) : (l1 ++ l2).get? i = l1.get? i := by
  rw [List.get?_eq_getElem?, List.get?_eq_getElem?, List.getElem?_append_left h]

/-! ## Invariant transfer and append lemmas -/

theorem BaseInv_transfer {st st' : BuilderState}
    (he : st'.emissionOrder = st.emissionOrder)
    (hi : st'.bundleImportedFiles = st.bundleImportedFiles)
    (hc : st'.bundleCodeText = st.bundleCodeText)
    (hb : BaseInv st) : BaseInv st' := by
  unfold BaseInv emittedNames at *
  rw [he, hi, hc]
  exact hb

theorem OrderInv_transfer {prog : Program} {st st' : BuilderState}
    (he : st'.emissionOrder = st.emissionOrder)
    (ho : OrderInv prog st) : OrderInv prog st' := by
  unfold OrderInv emittedNames at *
  rw [he]
  exact ho

theorem BaseInv_append {st st' : BuilderState} {g e : String}
    (he : st'.emissionOrder = st.emissionOrder ++ [(g, e)])
    (hi : st'.bundleImportedFiles = st.bundleImportedFiles ++ [g])
    (hc : st'.bundleCodeText = st.bundleCodeText ++ e ++ "\n")
    (hb : BaseInv st) : BaseInv st' := by
  obtain ⟨hb1, hb2⟩ := hb
  constructor
  · rw [hc, he, concatBodies_append_single, hb1]
  · intro x
    unfold emittedNames at *
    rw [he, hi]
    simp only [List.map_append, List.map_cons, List.map_nil, List.mem_append,
      List.mem_singleton]
    constructor
    · rintro (hx | hx)
      · exact Or.inl ((hb2 x).mp hx)
      · exact Or.inr hx
    · rintro (hx | hx)
      · exact Or.inl ((hb2 x).mpr hx)
      · exact Or.inr hx

theorem emittedNames_append {st st' : BuilderState} {g e : String}
    (he : st'.emissionOrder = st.emissionOrder ++ [(g, e)]) :
    emittedNames st' = emittedNames st ++ [g] := by
  unfold emittedNames
  rw [he]
  simp

theorem OrderInv_append {prog : Program} {st st' : BuilderState} {g e : String}
    (he : st'.emissionOrder = st.emissionOrder ++ [(g, e)])
    (hb : BaseInv st)
    (hcov : ∀ b ∈ internalTargets prog g, b ∈ st.bundleImportedFiles)
    (ho : OrderInv prog st) : OrderInv prog st' := by
  intro A B hAB hA
  have hnames := emittedNames_append he
  rw [hnames] at hA ⊢
  by_cases hAmem : A ∈ emittedNames st
  · obtain ⟨h1, h2⟩ := ho A B hAB hAmem
    exact ⟨List.mem_append_left _ h1,
      by rw [firstEmitIdx_append_of_mem h1, firstEmitIdx_append_of_mem hAmem]; exact h2⟩
  · have hAg : A = g := by
      rcases List.mem_append.mp hA with hh | hh
      · exact absurd hh hAmem
      · simpa using hh
    subst hAg
    have hBimp : B ∈ st.bundleImportedFiles := hcov B hAB
    have hBmem : B ∈ emittedNames st := (hb.2 B).mpr hBimp
    refine ⟨List.mem_append_left _ hBmem, ?_⟩
    rw [firstEmitIdx_append_of_mem hBmem, firstEmitIdx_append_self hAmem]
    exact firstEmitIdx_lt_length hBmem

/-! ## The ordered-emission induction (for C2) -/

theorem processImportNodes_append (prog : Program) (bundle : Bundle)
    (st : BuilderState) (xs ys : List Node) :
    processImportNodes prog bundle st (xs ++ ys)
      = match processImportNodes prog bundle st xs with
        | some t => processImportNodes prog bundle t ys
        | none => none := by
  induction xs generalizing st with
  | nil => rfl
  | cons n rest ih =>
      simp only [List.cons_append, processImportNodes]
      cases hp : processDepNode prog bundle st n with
      | none => rfl
      | some st1 => exact ih st1

theorem processDependencies_eq_flatten (prog : Program) (bundle : Bundle) :
    ∀ (sd : List (String × List Node)) (st : BuilderState),
    processDependencies prog bundle st sd
      = processImportNodes prog bundle st (flattenNodes sd) := by
  intro sd
  induction sd with
  | nil => intro st; rfl
  | cons kv rest ih =>
      intro st
      obtain ⟨k, nodes⟩ := kv
      unfold processDependencies flattenNodes
      simp only [List.map_cons, List.flatten_cons]
      rw [processImportNodes_append]
      cases hp : processImportNodes prog bundle st nodes with
      | none => rfl
      | some st1 =>
          simp only []
          rw [ih st1]
          rfl

theorem processImportNodes_inv {prog : Program} {bundle : Bundle} (N : List Node) :
    ∀ (suffix processed : List Node) (st st' : BuilderState),
    N = processed ++ suffix →
    (∀ j n, N.get? j = some n → ∀ a, nodeCodeTarget prog n = some a →
      ∀ b ∈ internalTargets prog a,
        ∃ i m, i < j ∧ N.get? i = some m ∧ nodeCodeTarget prog m = some b) →
    BaseInv st → OrderInv prog st → PrefixCovered prog processed st →
    processImportNodes prog bundle st suffix = some st' →
    BaseInv st' ∧ OrderInv prog st' ∧ PrefixCovered prog N st' := by
  intro suffix
  induction suffix with
  | nil =>
      intro processed st st' hN hcon hb ho hp h
      cases h
      exact ⟨hb, ho, by rwa [hN, List.append_nil]⟩
  | cons n rest ih =>
      intro processed st st' hN hcon hb ho hp h
      unfold processImportNodes at h
      cases hstep : processDepNode prog bundle st n with
      | none => rw [hstep] at h; cases h
      | some st1 =>
          rw [hstep] at h
          have hNget : N.get? processed.length = some n := by
            rw [hN]
            exact get?_append_cons_length processed n rest
          have hcov1 : ∀ B, nodeCodeTarget prog n = some B →
              ∀ b ∈ internalTargets prog B, b ∈ st.bundleImportedFiles := by
            intro B hB b hb'
            obtain ⟨i, m, hij, hgi, hmb⟩ := hcon processed.length n hNget B hB b hb'
            have hm : m ∈ processed := by
              rw [hN, get?_append_left_of_lt hij] at hgi
              exact List.get?_mem hgi
            exact hp m hm b hmb
          have hN' : N = (processed ++ [n]) ++ rest := by simp [hN]
          rcases processDepNode_spec hstep with
            ⟨⟨he, hi', hc⟩, hcovered⟩ |
            ⟨g, fg, editText, hg, hgmem, hgsf, hgpe, he, hi', hc⟩
          · have hb1 : BaseInv st1 := BaseInv_transfer he hi' hc hb
            have ho1 : OrderInv prog st1 := OrderInv_transfer he ho
            have hp1 : PrefixCovered prog (processed ++ [n]) st1 := by
              intro m hm B hB
              rw [hi']
              rcases List.mem_append.mp hm with hm | hm
              · exact hp m hm B hB
              · have hmn : m = n := by simpa using hm
                subst hmn
                exact hcovered B hB
            exact ih (processed ++ [n]) st1 st' hN' hcon hb1 ho1 hp1 h
          · have hb1 : BaseInv st1 := BaseInv_append he hi' hc hb
            have ho1 : OrderInv prog st1 :=
              OrderInv_append he hb (fun b hb' => hcov1 g hg b hb') ho
            have hp1 : PrefixCovered prog (processed ++ [n]) st1 := by
              intro m hm B hB
              rw [hi']
              rcases List.mem_append.mp hm with hm | hm
              · exact List.mem_append_left _ (hp m hm B hB)
              · have hmn : m = n := by simpa using hm
                subst hmn
                have hBg : B = g := by
                  rw [hg] at hB
                  injection hB with hB
                  exact hB.symm
                subst hBg
                exact List.mem_append_right _ (by simp)
            exact ih (processed ++ [n]) st1 st' hN' hcon hb1 ho1 hp1 h

theorem entryContractB_spec {prog : Program} {sd : List (String × List Node)}
    {entryName : String} (h : entryContractB prog sd entryName = true) :
    (∀ j n, (flattenNodes sd).get? j = some n → ∀ a, nodeCodeTarget prog n = some a →
      ∀ b ∈ internalTargets prog a,
        ∃ i m, i < j ∧ (flattenNodes sd).get? i = some m ∧
          nodeCodeTarget prog m = some b) ∧
    (∀ b ∈ internalTargets prog entryName,
      ∃ m ∈ flattenNodes sd, nodeCodeTarget prog m = some b) := by
  simp only [entryContractB, Bool.and_eq_true] at h
  obtain ⟨h1, h2⟩ := h
  constructor
  · intro j n hj a ha b hb
    rw [List.all_eq_true] at h1
    have hjlen : j < (flattenNodes sd).length := by
      obtain ⟨hlt, _⟩ := List.get?_eq_some.mp hj
      exact hlt
    have hx := h1 j (List.mem_range.mpr hjlen)
    simp only [hj, ha] at hx
    rw [List.all_eq_true] at hx
    have hy := hx b hb
    rw [List.any_eq_true] at hy
    obtain ⟨i, hi_mem, hbool⟩ := hy
    have hij : i < j := List.mem_range.mp hi_mem
    cases hgi : (flattenNodes sd).get? i with
    | none =>
        simp only [hgi] at hbool
        cases hbool
    | some m =>
        simp only [hgi] at hbool
        refine ⟨i, m, hij, hgi, ?_⟩
        simpa using hbool
  · intro b hb
    rw [List.all_eq_true] at h2
    have hy := h2 b hb
    rw [List.any_eq_true] at hy
    obtain ⟨m, hm, hbool⟩ := hy
    exact ⟨m, hm, by simpa using hbool⟩

theorem depsContractB_spec {prog : Program}
    {deps : SourceFile → List (String × List Node)} {bundle : Bundle}
    (h : depsContractB prog deps bundle = true) :
    ∀ name ∈ bundle.fileNames, ∀ f, prog.getSourceFile name = some f →
      entryContractB prog (deps f) f.fileName = true := by
  unfold depsContractB at h
  rw [List.all_eq_true] at h
  intro name hname f hf
  have hx := h name hname
  simp only [hf] at hx
  exact hx

theorem processEntries_inv {prog : Program}
    {deps : SourceFile → List (String × List Node)} {bundle : Bundle} :
    ∀ (files : List String) (st0 : BuilderState) (tsx0 : Bool)
      (st1 : BuilderState) (tsx1 : Bool),
    (∀ name ∈ files, ∀ f, prog.getSourceFile name = some f →
      entryContractB prog (deps f) f.fileName = true) →
    BaseInv st0 → OrderInv prog st0 →
    processEntries prog deps bundle files st0 tsx0
      = some (LoopOutcome.done st1 tsx1) →
    BaseInv st1 ∧ OrderInv prog st1 := by
  intro files
  induction files with
  | nil =>
      intro st0 tsx0 st1 tsx1 _ hb ho h
      cases h
      exact ⟨hb, ho⟩
  | cons name rest ih =>
      intro st0 tsx0 st1 tsx1 hcon hb ho h
      unfold processEntries at h
      cases hsf : prog.getSourceFile name with
      | none => simp only [hsf] at h; cases h
      | some f =>
          simp only [hsf] at h
          cases hdep : processDependencies prog bundle
              { st0 with allDependencies := mergeFirstWins st0.allDependencies (deps f) }
              (deps f) with
          | none => simp only [hdep] at h; cases h
          | some stB =>
              simp only [hdep] at h
              cases hadd : addSourceFile bundle f stB with
              | none => simp only [hadd] at h; cases h
              | some stC =>
                  simp only [hadd] at h
                  have hcB := hcon name (List.mem_cons_self _ _) f hsf
                  obtain ⟨hc1, hc2⟩ := entryContractB_spec hcB
                  rw [processDependencies_eq_flatten] at hdep
                  have hinner := processImportNodes_inv (flattenNodes (deps f))
                      (flattenNodes (deps f)) []
                      { st0 with allDependencies :=
                          mergeFirstWins st0.allDependencies (deps f) }
                      stB rfl hc1 hb ho
                      (fun m hm => absurd hm (List.not_mem_nil m)) hdep
                  obtain ⟨hbB, hoB, hpB⟩ := hinner
                  rcases addSourceFile_spec hadd with
                    ⟨editText, hcode, hpe, he, hi', hc⟩ | ⟨hncode, he, hi', hc⟩
                  · have hcovE : ∀ b ∈ internalTargets prog f.fileName,
                        b ∈ stB.bundleImportedFiles := by
                      intro b hb'
                      obtain ⟨m, hm, hmb⟩ := hc2 b hb'
                      exact hpB m hm b hmb
                    have hbC : BaseInv stC := BaseInv_append he hi' hc hbB
                    have hoC : OrderInv prog stC := OrderInv_append he hbB hcovE hoB
                    exact ih stC _ st1 tsx1
                      (fun nm hm f' hf' => hcon nm (List.mem_cons_of_mem _ hm) f' hf')
                      hbC hoC h
                  · have hbC : BaseInv stC := BaseInv_transfer he hi' hc hbB
                    have hoC : OrderInv prog stC := OrderInv_transfer he hoB
                    exact ih stC _ st1 tsx1
                      (fun nm hm f' hf' => hcon nm (List.mem_cons_of_mem _ hm) f' hf')
                      hbC hoC h

/-! ## The at-most-once induction (for C1) -/

theorem countEmis_transfer {f : String} {st st' : BuilderState}
    (he : st'.emissionOrder = st.emissionOrder) :
    countEmis f st' = countEmis f st := by
  unfold countEmis emittedNames
  rw [he]

theorem countEmis_append {f g e : String} {st st' : BuilderState}
    (he : st'.emissionOrder = st.emissionOrder ++ [(g, e)]) :
    countEmis f st' = countEmis f st + List.count f [g] := by
  unfold countEmis
  rw [emittedNames_append he, List.count_append]

theorem processImportNodes_count {prog : Program} {bundle : Bundle} {f : String} :
    ∀ (nodes : List Node) (st st' : BuilderState),
    BaseInv st → countEmis f st ≤ 1 →
    processImportNodes prog bundle st nodes = some st' →
    BaseInv st' ∧ countEmis f st' ≤ 1 := by
  intro nodes
  induction nodes with
  | nil => intro st st' hb hcnt h; cases h; exact ⟨hb, hcnt⟩
  | cons n rest ih =>
      intro st st' hb hcnt h
      unfold processImportNodes at h
      cases hstep : processDepNode prog bundle st n with
      | none => rw [hstep] at h; cases h
      | some st1 =>
          rw [hstep] at h
          rcases processDepNode_spec hstep with
            ⟨⟨he, hi', hc⟩, _⟩ |
            ⟨g, fg, editText, hg, hgmem, _, _, he, hi', hc⟩
          · exact ih st1 st' (BaseInv_transfer he hi' hc hb)
              (by rw [countEmis_transfer he]; exact hcnt) h
          · have hb1 := BaseInv_append he hi' hc hb
            have hcnt1 : countEmis f st1 ≤ 1 := by
              rw [countEmis_append he]
              by_cases hgf : g = f
              · subst hgf
                have hgem : g ∉ emittedNames st := fun hmem => hgmem ((hb.2 g).mp hmem)
                have h0 : countEmis g st = 0 := List.count_eq_zero_of_not_mem hgem
                rw [h0]
                simp
              · have h0 : List.count f [g] = 0 :=
                  List.count_eq_zero_of_not_mem (by
                    simp only [List.mem_singleton]
                    exact fun hfg => hgf hfg.symm)
                rw [h0]
                omega
            exact ih st1 st' hb1 hcnt1 h

theorem processEntries_count {prog : Program}
    {deps : SourceFile → List (String × List Node)} {bundle : Bundle} {f : String} :
    ∀ (files : List String) (st0 : BuilderState) (tsx0 : Bool)
      (st1 : BuilderState) (tsx1 : Bool),
    (∀ name ∈ files, name ≠ f) →
    BaseInv st0 → countEmis f st0 ≤ 1 →
    processEntries prog deps bundle files st0 tsx0
      = some (LoopOutcome.done st1 tsx1) →
    BaseInv st1 ∧ countEmis f st1 ≤ 1 := by
  intro files
  induction files with
  | nil =>
      intro st0 tsx0 st1 tsx1 _ hb hcnt h
      cases h
      exact ⟨hb, hcnt⟩
  | cons name rest ih =>
      intro st0 tsx0 st1 tsx1 hne hb hcnt h
      unfold processEntries at h
      cases hsf : prog.getSourceFile name with
      | none => simp only [hsf] at h; cases h
      | some fl =>
          simp only [hsf] at h
          cases hdep : processDependencies prog bundle
              { st0 with allDependencies := mergeFirstWins st0.allDependencies (deps fl) }
              (deps fl) with
          | none => simp only [hdep] at h; cases h
          | some stB =>
              simp only [hdep] at h
              cases hadd : addSourceFile bundle fl stB with
              | none => simp only [hadd] at h; cases h
              | some stC =>
                  simp only [hadd] at h
                  rw [processDependencies_eq_flatten] at hdep
                  obtain ⟨hbB, hcntB⟩ :=
                    processImportNodes_count (flattenNodes (deps fl))
                      { st0 with allDependencies :=
                          mergeFirstWins st0.allDependencies (deps fl) }
                      stB hb hcnt hdep
                  rcases addSourceFile_spec hadd with
                    ⟨editText, hcode, hpe, he, hi', hc⟩ | ⟨hncode, he, hi', hc⟩
                  · have hbC : BaseInv stC := BaseInv_append he hi' hc hbB
                    have hcntC : countEmis f stC ≤ 1 := by
                      rw [countEmis_append he]
                      have hfn : fl.fileName = name := getSourceFile_fileName hsf
                      have hne' : fl.fileName ≠ f := by
                        rw [hfn]
                        exact hne name (List.mem_cons_self _ _)
                      have h0 : List.count f [fl.fileName] = 0 :=
                        List.count_eq_zero_of_not_mem (by
                          simp only [List.mem_singleton]
                          exact fun hfg => hne' hfg.symm)
                      rw [h0]
                      omega
                    exact ih stC _ st1 tsx1
                      (fun nm hm => hne nm (List.mem_cons_of_mem _ hm)) hbC hcntC h
                  · exact ih stC _ st1 tsx1
                      (fun nm hm => hne nm (List.mem_cons_of_mem _ hm))
                      (BaseInv_transfer he hi' hc hbB)
                      (by rw [countEmis_transfer he]; exact hcntB) h

/-- Claim C1 counterexample: with entries a.ts then b.ts where a.ts imports
b.ts, the entry b.ts is emitted once as a dependency of a.ts and
then a second time by the unguarded `addSourceFile` at line 334 — its body
is appended twice, not exactly once. -/
theorem claimC1_counterexample :
    "b.ts" ∈ internalTargets progC1 "a.ts" ∧
    processEntries progC1 depsC1 bundleC1 bundleC1.fileNames initialState false
      = some (LoopOutcome.done stC1 false) ∧
    emittedNames stC1 = ["b.ts", "a.ts", "b.ts"] ∧
    stC1.bundleCodeText = concatBodies stC1.emissionOrder ∧
    countEmis "b.ts" stC1 = 2 ∧
    ¬ countEmis "b.ts" stC1 ≤ 1 :=
  ⟨by decide, rfl, rfl, rfl, by decide, by decide⟩

/-- Claim C1 amended: a unit that does not itself appear among the
bundle's entry file names is appended to the body at most once (dependency
additions are guarded by the seen set); only entry units, whose final
`addSourceFile` is unguarded, can be appended again.  `bundleCodeText` is
the concatenation of the appended bodies. -/
theorem claimC1_amended (prog : Program)
    (deps : SourceFile → List (String × List Node)) (bundle : Bundle)
    (f : String) (st : BuilderState) (isTsx : Bool)
    (hf : f ∉ bundle.fileNames)
    (hdone : processEntries prog deps bundle bundle.fileNames initialState false
      = some (LoopOutcome.done st isTsx)) :
    countEmis f st ≤ 1 ∧
    st.bundleCodeText = concatBodies st.emissionOrder := by
  have hbase : BaseInv initialState := by
    constructor
    · rfl
    · intro g
      simp [emittedNames, initialState]
  have hne : ∀ name ∈ bundle.fileNames, name ≠ f := by
    intro name hm he
    rw [he] at hm
    exact hf hm
  obtain ⟨hb, hcnt⟩ := processEntries_count bundle.fileNames initialState false st isTsx
    hne hbase (by simp [countEmis, emittedNames, initialState]) hdone
  exact ⟨hcnt, hb.1⟩

/-- Witness for the amended C1 at the concrete two-entry bundle, for a
unit name that is not an entry. -/
theorem claimC1_witness :
    countEmis "c.ts" stC1 ≤ 1 ∧
    stC1.bundleCodeText = concatBodies stC1.emissionOrder :=
  claimC1_amended progC1 depsC1 bundleC1 "c.ts" stC1 false (by decide) rfl

/-- Claim C2 counterexample: in the cyclic program where a.ts and b.ts import
each other, both "a imports b" and "b imports a" hold, and the
emitted order is b.ts, a.ts (first-encountered first), so a.ts's body does
not precede b.ts's — the claim as stated fails on cycles. -/
theorem claimC2_counterexample :
    "b.ts" ∈ internalTargets progC2x "a.ts" ∧
    "a.ts" ∈ internalTargets progC2x "b.ts" ∧
    processEntries progC2x depsC2x bundleC2x bundleC2x.fileNames initialState false
      = some (LoopOutcome.done stC2x false) ∧
    emittedNames stC2x = ["b.ts", "a.ts", "a.ts"] ∧
    "b.ts" ∈ emittedNames stC2x ∧
    ¬ (firstEmitIdx (emittedNames stC2x) "a.ts"
        < firstEmitIdx (emittedNames stC2x) "b.ts") :=
  ⟨by decide, by decide, rfl, rfl, by decide, by decide⟩

/-- Claim C2 amended: whenever the dependency lists supplied by the walker
satisfy its contract (dependencies listed before dependents — spec section
4.5, as captured by `depsContractB`; satisfiable exactly when the internal import
graph reached by the walk is acyclic), then for any emitted units
A and B where A imports B, B is emitted and the first occurrence of B's
body strictly precedes the first occurrence of A's body in the
concatenated bundle body. -/
theorem claimC2_amended (prog : Program)
    (deps : SourceFile → List (String × List Node)) (bundle : Bundle)
    (st : BuilderState) (isTsx : Bool) (A B : String)
    (hc : depsContractB prog deps bundle = true)
    (hdone : processEntries prog deps bundle bundle.fileNames initialState false
      = some (LoopOutcome.done st isTsx))
    (hAB : B ∈ internalTargets prog A)
    (hA : A ∈ emittedNames st) :
    B ∈ emittedNames st ∧
    firstEmitIdx (emittedNames st) B < firstEmitIdx (emittedNames st) A ∧
    st.bundleCodeText = concatBodies st.emissionOrder := by
  have hbase : BaseInv initialState := by
    constructor
    · rfl
    · intro g
      simp [emittedNames, initialState]
  have horder : OrderInv prog initialState := by
    intro A' B' _ hA'
    simp [emittedNames, initialState] at hA'
  obtain ⟨hb, ho⟩ := processEntries_inv bundle.fileNames initialState false st isTsx
    (depsContractB_spec hc) hbase horder hdone
  obtain ⟨h1, h2⟩ := ho A B hAB hA
  exact ⟨h1, h2, hb.1⟩

/-- Witness for the amended C2 at the concrete acyclic bundle (entry a.ts imports
b.ts): b.ts's body comes first. -/
theorem claimC2_witness :
    "b.ts" ∈ emittedNames stC2w ∧
    firstEmitIdx (emittedNames stC2w) "b.ts" < firstEmitIdx (emittedNames stC2w) "a.ts" ∧
    stC2w.bundleCodeText = concatBodies stC2w.emissionOrder :=
  claimC2_amended progC2 depsC2 bundleC2 stC2w false "a.ts" "b.ts"
    (by decide) rfl (by decide) (by decide)
